import Mathlib

/-!
Verification of the linked-document-graph core of the project-management
backend (app/schemas/documents.py, app/routers/workplace.py).

Entities are shallowly embedded as Lean structures; the document store is a
`State` of lists of records keyed by identifier.  UUIDs are modelled by their
128-bit integer value (`uuid.UUID.int`) as a `Nat`; identifier generation
(`uuid4` default factories) is modelled by a fresh-identifier counter on the
state.  Back-reference fields (`BackLink` with `original_field`) are derived
views: resolving a child's back-reference queries for the parent whose
forward-link collection contains the child's identifier.  Fallible Python
code (attribute access on `None`, unresolved attributes) is modelled with
`Except DomainError`.
-/

/-- Roles of a workplace membership.  Modelled from the spec: `Role` lives in
app/schemas/types.py, which is not under src/; the spec fixes the three
levels ADMIN | MEMBER | GUEST. -/
inductive Role where
  | ADMIN
  | MEMBER
  | GUEST
deriving DecidableEq

/-- Errors surfaced by the modelled operations.  `validationError` models
app.core.exceptions.ValidationError (raised by the sprint overlap check);
`attributeError` models a Python `AttributeError` crash (attribute access on
`None` or on an object lacking the attribute); `notFound` models the NotFound
domain error the spec's error design calls for. -/
inductive DomainError where
  | notFound
  | validationError (msg : String)
  | attributeError (attr : String)
deriving DecidableEq

/-- Values of the attributes of Python's `uuid.UUID` objects: integers,
strings, and tuples of integers. -/
inductive PyAttr where
  | pint (n : Nat)
  | pstr (s : String)
  | ptuple (t : List Nat)
deriving DecidableEq

/-- Attribute names exposed by Python's `uuid.UUID` class (CPython
`uuid.py`): the six field accessors, `fields`, `bytes`, `bytes_le`, `int`,
`hex`, `urn`, `time`, `clock_seq`, `variant`, `version`, `is_safe`.  Note
that `generation_time` is not among them: that attribute belongs to
`bson.ObjectId`, not to `uuid.UUID`. -/
def uuidAttrNames : List String :=
  ["int", "bytes", "bytes_le", "fields", "hex", "urn",
   "time", "clock_seq", "variant", "version", "is_safe",
   "time_low", "time_mid", "time_hi_version",
   "clock_seq_hi_variant", "clock_seq_low", "node"]

/-- Big-endian byte list of the 128-bit uuid integer `n`
(`uuid.UUID.bytes`). -/
def uuidBytes (n : Nat) : List Nat :=
  (List.range 16).map (fun i => n >>> (8 * (15 - i)) % 256)

/-- Value of the named `uuid.UUID` attribute, computed from the uuid's
128-bit integer value `n` as CPython's `uuid.py` does. -/
def uuidAttrVal (n : Nat) (attr : String) : PyAttr :=
  let time_low := n >>> 96
  let time_mid := n >>> 80 % 65536
  let time_hi_version := n >>> 64 % 65536
  let clock_seq_hi_variant := n >>> 56 % 256
  let clock_seq_low := n >>> 48 % 256
  let node := n % (2 ^ 48)
  if attr = "int" then .pint n
  else if attr = "bytes" then .ptuple (uuidBytes n)
  else if attr = "bytes_le" then
    .ptuple (match uuidBytes n with
      | b0 :: b1 :: b2 :: b3 :: b4 :: b5 :: b6 :: b7 :: rest =>
          b3 :: b2 :: b1 :: b0 :: b5 :: b4 :: b7 :: b6 :: rest
      | l => l)
  else if attr = "fields" then
    .ptuple [time_low, time_mid, time_hi_version,
             clock_seq_hi_variant, clock_seq_low, node]
  else if attr = "hex" then .pstr (String.mk (Nat.toDigits 16 n))
  else if attr = "urn" then .pstr ("urn:uuid:" ++ String.mk (Nat.toDigits 16 n))
  else if attr = "time" then
    .pint ((time_hi_version % 4096) <<< 48 + time_mid <<< 32 + time_low)
  else if attr = "clock_seq" then
    .pint ((clock_seq_hi_variant % 64) <<< 8 + clock_seq_low)
  else if attr = "variant" then .pstr "specified in RFC 4122"
  else if attr = "version" then .pint (n >>> 76 % 16)
  else if attr = "is_safe" then .pstr "SafeUUID.unknown"
  else .pint time_low

/-- Python attribute access on a `uuid.UUID` whose integer value is `n`:
returns the attribute's value when the attribute exists, and raises
`AttributeError` otherwise. -/
def uuidGetattr (n : Nat) (attr : String) : Except DomainError PyAttr :=
  if attr ∈ uuidAttrNames then .ok (uuidAttrVal n attr)
  else .error (.attributeError attr)

deriving instance DecidableEq for Except

/-- Creation payload of a workplace.  Modelled from the spec: the
`WorkplaceCreation` model lives in app/schemas/models.py, which is not under
src/; the router reads `workplace.name`, and the spec exposes no other
creation field, so the payload carries the name. -/
structure WorkplaceCreation where
  name : String
deriving DecidableEq

/-- Creation payload of a sprint.  Modelled from the spec: the
`SprintCreation` model lives in app/schemas/models.py, which is not under
src/; the spec gives a sprint a start and an end date, which are the only
fields the overlap validator reads.  Dates are modelled as integers with the
calendar order. -/
structure SprintCreation where
  start_date : Int
  end_date : Int
deriving DecidableEq

/-- User document (class `User` of documents.py): generated uuid identifier,
unique email, excluded password hash. -/
structure User where
  id : Nat
  email : String
  password : String
deriving DecidableEq

/-- UserAssignedWorkplace document (membership): generated uuid identifier,
link to the user, role.  Its `workplace` back-reference
(`original_field="users"`) is a derived view, resolved against the store. -/
structure UserAssignedWorkplace where
  id : Nat
  userId : Nat
  role : Role
deriving DecidableEq

/-- Workplace document: identifier, creation fields, workflow states, and
the forward-link collections `users`, `sprints`, `issues` (stored as lists
of linked identifiers). -/
structure Workplace where
  id : Nat
  name : String
  states : List String
  users : List Nat
  sprints : List Nat
  issues : List Nat
deriving DecidableEq

/-- Sprint document: identifier, the `SprintCreation` date fields, and the
forward-link collection `issues`.  Its `workplace` back-reference
(`original_field="sprints"`) is a derived view. -/
structure Sprint where
  id : Nat
  start_date : Int
  end_date : Int
  issues : List Nat
deriving DecidableEq

/-- Issue document: identifier, creation date, optional author membership,
implementer memberships.  Its `workplace` and optional `sprint`
back-references (`original_field="issues"`) are derived views. -/
structure Issue where
  id : Nat
  creation_date : Int
  author : Option Nat
  implementers : List Nat
deriving DecidableEq

/-- Comment document: identifier, creation date, optional author membership.
Its `issue` back-reference (`original_field="comments"`) is a derived
view. -/
structure Comment where
  id : Nat
  creation_date : Int
  author : Option Nat
deriving DecidableEq

/-- Python values an entity can be compared against with `==`: the five
entity documents, a raw `uuid.UUID` identifier, or a value of any other
type. -/
inductive PyVal where
  | user (u : User)
  | membership (m : UserAssignedWorkplace)
  | sprint (s : Sprint)
  | issue (i : Issue)
  | comment (c : Comment)
  | uuid (n : Nat)
  | otherVal
deriving DecidableEq

/-- Method `User.__eq__`: `other` must be a `User` or a `UUID`, else the
comparison is `False`; otherwise the identifiers are compared. -/
def User.eq (self : User) (other : PyVal) : Bool :=
  match other with
  | .user u => self.id == u.id
  | .uuid n => self.id == n
  | _ => false

/-- Method `UserAssignedWorkplace.__eq__`: same identifier-comparison
contract restricted to `UserAssignedWorkplace` and `UUID`. -/
def UserAssignedWorkplace.eq (self : UserAssignedWorkplace) (other : PyVal) : Bool :=
  match other with
  | .membership m => self.id == m.id
  | .uuid n => self.id == n
  | _ => false

/-- Method `Sprint.__eq__`: same identifier-comparison contract restricted
to `Sprint` and `UUID`. -/
def Sprint.eq (self : Sprint) (other : PyVal) : Bool :=
  match other with
  | .sprint s => self.id == s.id
  | .uuid n => self.id == n
  | _ => false

/-- Method `Issue.__eq__`: same identifier-comparison contract restricted to
`Issue` and `UUID`. -/
def Issue.eq (self : Issue) (other : PyVal) : Bool :=
  match other with
  | .issue i => self.id == i.id
  | .uuid n => self.id == n
  | _ => false

/-- Method `Comment.__eq__`: same identifier-comparison contract restricted
to `Comment` and `UUID`. -/
def Comment.eq (self : Comment) (other : PyVal) : Bool :=
  match other with
  | .comment c => self.id == c.id
  | .uuid n => self.id == n
  | _ => false

/-- Property `User.created` (documents.py line 23): returns
`self.id.generation_time`, a Python attribute access on the user's
`uuid.UUID` identifier. -/
def User.created (self : User) : Except DomainError PyAttr :=
  uuidGetattr self.id "generation_time"

/-- Document store: one list of records per collection, plus the
fresh-identifier counter that models `uuid4` generation of new
identifiers. -/
structure State where
  memberships : List UserAssignedWorkplace
  workplaces : List Workplace
  sprints : List Sprint
  issues : List Issue
  next : Nat
deriving DecidableEq

/-- Empty store. -/
def initialState : State :=
  { memberships := [], workplaces := [], sprints := [], issues := [], next := 0 }

/-- Query `Workplace.find_one(Workplace.id == wid)`. -/
def findWorkplace (st : State) (wid : Nat) : Option Workplace :=
  st.workplaces.find? (fun w => w.id == wid)

/-- Query `UserAssignedWorkplace.find_one(UserAssignedWorkplace.id == mid)`. -/
def findMembership (st : State) (mid : Nat) : Option UserAssignedWorkplace :=
  st.memberships.find? (fun m => m.id == mid)

/-- Query `Sprint.find_one(Sprint.id == sid)`. -/
def findSprint (st : State) (sid : Nat) : Option Sprint :=
  st.sprints.find? (fun s => s.id == sid)

/-- Query `Issue.find_one(Issue.id == iid)`. -/
def findIssue (st : State) (iid : Nat) : Option Issue :=
  st.issues.find? (fun i => i.id == iid)

/-- Resolution of a membership's `workplace` back-reference
(`original_field="users"`): the workplace whose `users` collection lists the
membership's identifier. -/
def membershipWorkplace (st : State) (mid : Nat) : Option Workplace :=
  st.workplaces.find? (fun w => w.users.contains mid)

/-- Resolution of a sprint's `workplace` back-reference
(`original_field="sprints"`). -/
def sprintWorkplace (st : State) (sid : Nat) : Option Workplace :=
  st.workplaces.find? (fun w => w.sprints.contains sid)

/-- Resolution of an issue's `workplace` back-reference
(`original_field="issues"`). -/
def issueWorkplace (st : State) (iid : Nat) : Option Workplace :=
  st.workplaces.find? (fun w => w.issues.contains iid)

/-- Resolution of an issue's optional `sprint` back-reference
(`original_field="issues"` on Sprint). -/
def issueSprint (st : State) (iid : Nat) : Option Sprint :=
  st.sprints.find? (fun s => s.issues.contains iid)

/-- Persisting an updated workplace document (`workplace.save()`): the
stored record with that identifier is replaced by the updated copy. -/
def updateWorkplace (l : List Workplace) (wid : Nat) (f : Workplace → Workplace) :
    List Workplace :=
  l.map (fun w => if w.id == wid then f w else w)

/-- Default workflow states of a new workplace.  Modelled from the spec: the
`states` factory lives in app/schemas/types.py, which is not under src/; the
spec says a workplace "has one or more lifecycle states initialized on
creation", and no claim depends on the particular values. -/
def statesDefault : List String := ["To do", "In progress", "Done"]

/-- Route `create_workplace` (workplace.py lines 23-28): build the workplace
from the creation payload, set its `users` collection to a single new
ADMIN membership for the requesting user, and save with
`link_rule=WriteRules.WRITE` (persisting the linked membership document as
well).  `uuid4` generation of the two fresh identifiers is modelled by the
state counter. -/
def create_workplace (st : State) (c : WorkplaceCreation) (userId : Nat) : State :=
  let wid := st.next
  let mid := st.next + 1
  let w : Workplace :=
    { id := wid, name := c.name, states := statesDefault,
      users := [mid], sprints := [], issues := [] }
  let m : UserAssignedWorkplace := { id := mid, userId := userId, role := Role.ADMIN }
  { st with workplaces := st.workplaces ++ [w],
            memberships := st.memberships ++ [m],
            next := st.next + 2 }

/-- Route `edit_workplace` (workplace.py lines 42-50): find the workplace,
then `update({"$set": workplace_creation.model_dump()})` — a merge-patch
setting exactly the dumped creation fields.  When `find_one` returns `None`,
the subsequent `.update` attribute access on `None` raises
`AttributeError`. -/
def edit_workplace (st : State) (wid : Nat) (c : WorkplaceCreation) :
    Except DomainError State :=
  match findWorkplace st wid with
  | none => .error (.attributeError "update")
  | some _ =>
      let ws := updateWorkplace st.workplaces wid (fun w => { w with name := c.name })
      .ok { st with workplaces := ws }

/-- Route `add_to_workplace` (workplace.py lines 105-119), after the token
has resolved to a registered user: find the workplace, append a new MEMBER
membership for that user to its `users` collection, and save with
`link_rule=WriteRules.WRITE`.  When `find_one` returns `None`, the
`.users` attribute access on `None` raises `AttributeError`. -/
def add_to_workplace (st : State) (wid : Nat) (userId : Nat) :
    Except DomainError State :=
  match findWorkplace st wid with
  | none => .error (.attributeError "users")
  | some _ =>
      let mid := st.next
      .ok { st with
        workplaces := updateWorkplace st.workplaces wid
          (fun w => { w with users := w.users ++ [mid] }),
        memberships := st.memberships ++
          [{ id := mid, userId := userId, role := Role.MEMBER }],
        next := st.next + 1 }

/-- Method `Sprint.validate_creation` (documents.py lines 75-89): search for
a sprint of the given workplace, other than `sprint_id`, whose dates satisfy
one of the three overlap conditions; if one is found, raise the validation
error.  The `Sprint.workplace.id == workplace_id` term queries the derived
back-reference; `Sprint.id != sprint_id` with `sprint_id = None` excludes
nothing (every stored identifier differs from null). -/
def Sprint.validate_creation (st : State) (sprint_creation : SprintCreation)
    (workplace_id : Nat) (sprint_id : Option Nat) : Except DomainError Unit :=
  let find_sprint := st.sprints.find? (fun s =>
    ((sprintWorkplace st s.id).map Workplace.id == some workplace_id) &&
    ((s.start_date ≥ sprint_creation.start_date && s.start_date < sprint_creation.end_date) ||
     (s.end_date > sprint_creation.start_date && s.end_date ≤ sprint_creation.end_date) ||
     (s.start_date ≤ sprint_creation.start_date && s.end_date ≥ sprint_creation.end_date)) &&
    (some s.id != sprint_id))
  if find_sprint.isSome then
    .error (.validationError "Спринты не должны пересекаться по дате.")
  else .ok ()

/-- Pre-delete hook `Issue.delete_refs` (documents.py lines 107-115)
followed by removal of the issue record, as executed during a cascade where
the enclosing graph is being deleted anyway (total function; the orphan
cases that would crash standalone are skipped).  The hook removes the
issue's identifier from the back-referenced workplace's `issues` collection
and awaits `workplace.save()`, so that change is persisted.  It then removes
the identifier from the back-referenced sprint's `issues` list and calls
`self.sprint.save()` WITHOUT `await`: the coroutine is never run, so the
sprint document in the store is left unchanged.  Clearing `author` and
`implementers` mutates only the record that is removed next. -/
def deleteIssueCascade (st : State) (iid : Nat) : State :=
  match findIssue st iid with
  | none => st
  | some _ =>
      let st1 :=
        match issueWorkplace st iid with
        | none => st
        | some w =>
            let ws := updateWorkplace st.workplaces w.id
              (fun w' => { w' with issues := w'.issues.erase iid })
            { st with workplaces := ws }
      { st1 with issues := st1.issues.filter (fun i => !(i.id == iid)) }

/-- Route deleting a single issue.  The delete route for issues is not under
src/; modelled from the spec, it finds the issue and calls `.delete()`,
which runs the `Issue.delete_refs` hook of documents.py before removing the
record (comments are not cascade-deleted).  A missing issue makes the
`.delete` attribute access on `None` crash; an issue whose workplace
back-reference resolves to `None` makes the hook's
`self.workplace.issues.remove` crash before anything is persisted. -/
def Issue.deleteOne (st : State) (iid : Nat) : Except DomainError State :=
  match findIssue st iid with
  | none => .error (.attributeError "delete")
  | some _ =>
      match issueWorkplace st iid with
      | none => .error (.attributeError "issues")
      | some _ => .ok (deleteIssueCascade st iid)

/-- Pre-delete hook `Sprint.delete_ref_workplace` (documents.py lines 70-73)
followed by deletion of the sprint's linked issues and removal of the sprint
record, as executed during the workplace cascade
(`link_rule=DeleteRules.DELETE_LINKS` descends into the sprint's `issues`
links, running each issue's own hook).  The hook removes the sprint's
identifier from the back-referenced workplace's `sprints` collection and
awaits `workplace.save()`. -/
def deleteSprintCascade (st : State) (sid : Nat) : State :=
  match findSprint st sid with
  | none => st
  | some s =>
      let st1 :=
        match sprintWorkplace st sid with
        | none => st
        | some w =>
            let ws := updateWorkplace st.workplaces w.id
              (fun w' => { w' with sprints := w'.sprints.erase sid })
            { st with workplaces := ws }
      let st2 := s.issues.foldl deleteIssueCascade st1
      { st2 with sprints := st2.sprints.filter (fun s' => !(s'.id == sid)) }

/-- Route deleting a single sprint.  The delete route for sprints is not
under src/; modelled from the spec's cascade policy table, it finds the
sprint and calls `.delete()` without cascading into the contained issues
("does NOT cascade-delete child Issues"), so only the
`Sprint.delete_ref_workplace` hook of documents.py runs before the record is
removed.  A missing sprint makes the `.delete` attribute access on `None`
crash; a sprint whose workplace back-reference resolves to `None` makes the
hook's `self.workplace.sprints.remove` crash before anything is
persisted. -/
def Sprint.deleteOne (st : State) (sid : Nat) : Except DomainError State :=
  match findSprint st sid with
  | none => .error (.attributeError "delete")
  | some _ =>
      match sprintWorkplace st sid with
      | none => .error (.attributeError "sprints")
      | some w =>
          let ws := updateWorkplace st.workplaces w.id
            (fun w' => { w' with sprints := w'.sprints.erase sid })
          .ok { st with workplaces := ws,
                        sprints := st.sprints.filter (fun s' => !(s'.id == sid)) }

/-- Route `delete_workplace` (workplace.py lines 53-58): first bulk-delete
every membership whose derived workplace back-reference has this identifier,
then find the workplace with its links fetched and delete it with
`link_rule=DeleteRules.DELETE_LINKS`, which cascade-deletes the linked
sprints (each descending into its own issues) and issues before removing the
workplace record itself; the spec's cascade policy table fixes this
transitive behaviour.  When `find_one` returns `None`, the `.delete`
attribute access on `None` raises `AttributeError` (and the preceding bulk
delete matched nothing, because no workplace with that identifier can be the
resolution of a back-reference). -/
def Workplace.deleteCascade (st : State) (wid : Nat) : Except DomainError State :=
  let st0 := { st with memberships := st.memberships.filter (fun m =>
    !((membershipWorkplace st m.id).map Workplace.id == some wid)) }
  match findWorkplace st0 wid with
  | none => .error (.attributeError "delete")
  | some w =>
      let st1 := w.sprints.foldl deleteSprintCascade st0
      let st2 := w.issues.foldl deleteIssueCascade st1
      .ok { st2 with workplaces := st2.workplaces.filter (fun w' => !(w'.id == wid)) }

/-- Route creating a sprint in a workplace.  The sprint creation route is
not under src/; modelled from the spec, it validates the candidate dates
with `Sprint.validate_creation` (no excluded sprint), then persists a new
sprint document and appends its identifier to the workplace's `sprints`
collection. -/
def Sprint.createOne (st : State) (wid : Nat) (c : SprintCreation) :
    Except DomainError State :=
  match findWorkplace st wid with
  | none => .error (.attributeError "sprints")
  | some _ =>
      match Sprint.validate_creation st c wid none with
      | .error e => .error e
      | .ok _ =>
          let sid := st.next
          let s : Sprint :=
            { id := sid, start_date := c.start_date, end_date := c.end_date,
              issues := [] }
          .ok { st with
            sprints := st.sprints ++ [s],
            workplaces := updateWorkplace st.workplaces wid
              (fun w => { w with sprints := w.sprints ++ [sid] }),
            next := st.next + 1 }

/-- Route creating an issue in a workplace.  The issue creation route is not
under src/; modelled from the spec, it persists a new issue document with an
optional author membership and appends its identifier to the workplace's
`issues` collection. -/
def Issue.createOne (st : State) (wid : Nat) (author : Option Nat) (date : Int) :
    Except DomainError State :=
  match findWorkplace st wid with
  | none => .error (.attributeError "issues")
  | some _ =>
      let iid := st.next
      let i : Issue :=
        { id := iid, creation_date := date, author := author, implementers := [] }
      .ok { st with
        issues := st.issues ++ [i],
        workplaces := updateWorkplace st.workplaces wid
          (fun w => { w with issues := w.issues ++ [iid] }),
        next := st.next + 1 }

/-- Operations of the modelled system: the workplace routes of
workplace.py, plus the sprint and issue lifecycle routes backed by the hooks
of documents.py. -/
inductive Op where
  | createWorkplace (c : WorkplaceCreation) (userId : Nat)
  | editWorkplace (wid : Nat) (c : WorkplaceCreation)
  | invite (wid : Nat) (userId : Nat)
  | deleteWorkplace (wid : Nat)
  | createSprint (wid : Nat) (c : SprintCreation)
  | deleteSprint (sid : Nat)
  | createIssue (wid : Nat) (author : Option Nat) (date : Int)
  | deleteIssue (iid : Nat)

/-- Effect of one request on the store.  An operation that raises before
persisting anything leaves the store unchanged (each of the `Except`-valued
operations errors before its first persisted write, so the error branch
keeps the input state). -/
def applyOp (op : Op) (st : State) : State :=
  match op with
  | .createWorkplace c uid => create_workplace st c uid
  | .editWorkplace wid c =>
      match edit_workplace st wid c with
      | .ok st' => st'
      | .error _ => st
  | .invite wid uid =>
      match add_to_workplace st wid uid with
      | .ok st' => st'
      | .error _ => st
  | .deleteWorkplace wid =>
      match Workplace.deleteCascade st wid with
      | .ok st' => st'
      | .error _ => st
  | .createSprint wid c =>
      match Sprint.createOne st wid c with
      | .ok st' => st'
      | .error _ => st
  | .deleteSprint sid =>
      match Sprint.deleteOne st sid with
      | .ok st' => st'
      | .error _ => st
  | .createIssue wid author date =>
      match Issue.createOne st wid author date with
      | .ok st' => st'
      | .error _ => st
  | .deleteIssue iid =>
      match Issue.deleteOne st iid with
      | .ok st' => st'
      | .error _ => st

/-- States reachable from the empty store by a sequence of requests. -/
inductive Reachable : State → Prop where
  | init : Reachable initialState
  | step (op : Op) {st : State} : Reachable st → Reachable (applyOp op st)

/-- Store holding one workplace (identifier 0) with one existing sprint
(identifier 1) spanning [2024-01-01, 2024-01-10), for the spec's worked
overlap examples; dates are written as YYYYMMDD integers, which order as the
calendar does. -/
def overlapExampleState : State :=
  { memberships := [], workplaces := [⟨0, "W", statesDefault, [], [1], []⟩],
    sprints := [⟨1, 20240101, 20240110, []⟩], issues := [], next := 2 }

/-- Message of the sprint overlap validation error. -/
def overlapMsg : String := "Спринты не должны пересекаться по дате."

/-- C1: the sprint overlap validator raises the validation error exactly
when some sprint of the workplace, other than the excluded one, satisfies
one of the three overlap conditions (its start inside [candidate.start,
candidate.end), its end inside (candidate.start, candidate.end], or it fully
containing the candidate); and on an existing sprint [2024-01-01,
2024-01-10), the candidate [2024-01-05, 2024-01-15) conflicts, the adjacent
candidate [2024-01-10, 2024-01-20) passes, the containing candidate
[2023-12-01, 2024-02-01) conflicts, and re-validating the sprint's own dates
while excluding its own identifier passes. -/
theorem c1_sprint_overlap_validator :
    (∀ (st : State) (c : SprintCreation) (wid : Nat) (excl : Option Nat),
      Sprint.validate_creation st c wid excl =
          Except.error (DomainError.validationError overlapMsg) ↔
        ∃ s ∈ st.sprints,
          (sprintWorkplace st s.id).map Workplace.id = some wid ∧
          some s.id ≠ excl ∧
          ((c.start_date ≤ s.start_date ∧ s.start_date < c.end_date) ∨
           (c.start_date < s.end_date ∧ s.end_date ≤ c.end_date) ∨
           (s.start_date ≤ c.start_date ∧ c.end_date ≤ s.end_date))) ∧
    Sprint.validate_creation overlapExampleState ⟨20240105, 20240115⟩ 0 none =
      Except.error (DomainError.validationError overlapMsg) ∧
    Sprint.validate_creation overlapExampleState ⟨20240110, 20240120⟩ 0 none =
      Except.ok () ∧
    Sprint.validate_creation overlapExampleState ⟨20231201, 20240201⟩ 0 none =
      Except.error (DomainError.validationError overlapMsg) ∧
    Sprint.validate_creation overlapExampleState ⟨20240101, 20240110⟩ 0 (some 1) =
      Except.ok () := by
  refine ⟨?_, by decide, by decide, by decide, by decide⟩
  intro st c wid excl
  unfold Sprint.validate_creation
  by_cases h : (st.sprints.find? (fun s =>
      ((sprintWorkplace st s.id).map Workplace.id == some wid) &&
      ((s.start_date ≥ c.start_date && s.start_date < c.end_date) ||
       (s.end_date > c.start_date && s.end_date ≤ c.end_date) ||
       (s.start_date ≤ c.start_date && s.end_date ≥ c.end_date)) &&
      (some s.id != excl))).isSome
  · simp only [h, if_true]
    rw [List.find?_isSome] at h
    simp only [Bool.and_eq_true, Bool.or_eq_true, beq_iff_eq, bne_iff_ne,
      decide_eq_true_eq, ge_iff_le] at h
    constructor
    · intro _
      obtain ⟨s, hs, ⟨hw, hcond⟩, hne⟩ := h
      exact ⟨s, hs, hw, hne, by tauto⟩
    · intro _; rfl
  · simp only [h, if_false]
    rw [List.find?_isSome] at h
    constructor
    · intro hc; cases hc
    · intro ⟨s, hs, hw, hne, hcond⟩
      refine (h ⟨s, hs, ?_⟩).elim
      simp only [Bool.and_eq_true, Bool.or_eq_true, beq_iff_eq, bne_iff_ne,
        decide_eq_true_eq, ge_iff_le]
      exact ⟨⟨hw, by tauto⟩, hne⟩

/-- Commutativity of boolean equality of identifiers. -/
theorem natBeqComm (a b : Nat) : (a == b) = (b == a) := by
  by_cases h : a = b
  · subst h; rfl
  · have h2 : ¬ b = a := fun hh => h hh.symm
    simp [h, h2]

/-- C9: every entity `__eq__` returns true on a value of its own type
exactly when the identifiers are equal, returns true on the raw identifier
of its own value, and returns false on every value of another type; the
comparison is therefore reflexive, symmetric and transitive on entities of
one type.  One block of six conjuncts per entity type (User,
UserAssignedWorkplace, Sprint, Issue, Comment). -/
theorem c9_entity_equality_by_identifier :
    ((∀ a b : User, (User.eq a (.user b) = true ↔ a.id = b.id)) ∧
     (∀ a : User, User.eq a (.uuid a.id) = true) ∧
     (∀ (a : User) (m : UserAssignedWorkplace) (s : Sprint) (i : Issue) (c : Comment),
       User.eq a (.membership m) = false ∧ User.eq a (.sprint s) = false ∧
       User.eq a (.issue i) = false ∧ User.eq a (.comment c) = false ∧
       User.eq a PyVal.otherVal = false) ∧
     (∀ a : User, User.eq a (.user a) = true) ∧
     (∀ a b : User, User.eq a (.user b) = User.eq b (.user a)) ∧
     (∀ a b c : User, User.eq a (.user b) = true → User.eq b (.user c) = true →
       User.eq a (.user c) = true)) ∧
    ((∀ a b : UserAssignedWorkplace,
       (UserAssignedWorkplace.eq a (.membership b) = true ↔ a.id = b.id)) ∧
     (∀ a : UserAssignedWorkplace, UserAssignedWorkplace.eq a (.uuid a.id) = true) ∧
     (∀ (a : UserAssignedWorkplace) (u : User) (s : Sprint) (i : Issue) (c : Comment),
       UserAssignedWorkplace.eq a (.user u) = false ∧
       UserAssignedWorkplace.eq a (.sprint s) = false ∧
       UserAssignedWorkplace.eq a (.issue i) = false ∧
       UserAssignedWorkplace.eq a (.comment c) = false ∧
       UserAssignedWorkplace.eq a PyVal.otherVal = false) ∧
     (∀ a : UserAssignedWorkplace, UserAssignedWorkplace.eq a (.membership a) = true) ∧
     (∀ a b : UserAssignedWorkplace,
       UserAssignedWorkplace.eq a (.membership b) = UserAssignedWorkplace.eq b (.membership a)) ∧
     (∀ a b c : UserAssignedWorkplace, UserAssignedWorkplace.eq a (.membership b) = true →
       UserAssignedWorkplace.eq b (.membership c) = true →
       UserAssignedWorkplace.eq a (.membership c) = true)) ∧
    ((∀ a b : Sprint, (Sprint.eq a (.sprint b) = true ↔ a.id = b.id)) ∧
     (∀ a : Sprint, Sprint.eq a (.uuid a.id) = true) ∧
     (∀ (a : Sprint) (u : User) (m : UserAssignedWorkplace) (i : Issue) (c : Comment),
       Sprint.eq a (.user u) = false ∧ Sprint.eq a (.membership m) = false ∧
       Sprint.eq a (.issue i) = false ∧ Sprint.eq a (.comment c) = false ∧
       Sprint.eq a PyVal.otherVal = false) ∧
     (∀ a : Sprint, Sprint.eq a (.sprint a) = true) ∧
     (∀ a b : Sprint, Sprint.eq a (.sprint b) = Sprint.eq b (.sprint a)) ∧
     (∀ a b c : Sprint, Sprint.eq a (.sprint b) = true → Sprint.eq b (.sprint c) = true →
       Sprint.eq a (.sprint c) = true)) ∧
    ((∀ a b : Issue, (Issue.eq a (.issue b) = true ↔ a.id = b.id)) ∧
     (∀ a : Issue, Issue.eq a (.uuid a.id) = true) ∧
     (∀ (a : Issue) (u : User) (m : UserAssignedWorkplace) (s : Sprint) (c : Comment),
       Issue.eq a (.user u) = false ∧ Issue.eq a (.membership m) = false ∧
       Issue.eq a (.sprint s) = false ∧ Issue.eq a (.comment c) = false ∧
       Issue.eq a PyVal.otherVal = false) ∧
     (∀ a : Issue, Issue.eq a (.issue a) = true) ∧
     (∀ a b : Issue, Issue.eq a (.issue b) = Issue.eq b (.issue a)) ∧
     (∀ a b c : Issue, Issue.eq a (.issue b) = true → Issue.eq b (.issue c) = true →
       Issue.eq a (.issue c) = true)) ∧
    ((∀ a b : Comment, (Comment.eq a (.comment b) = true ↔ a.id = b.id)) ∧
     (∀ a : Comment, Comment.eq a (.uuid a.id) = true) ∧
     (∀ (a : Comment) (u : User) (m : UserAssignedWorkplace) (s : Sprint) (i : Issue),
       Comment.eq a (.user u) = false ∧ Comment.eq a (.membership m) = false ∧
       Comment.eq a (.sprint s) = false ∧ Comment.eq a (.issue i) = false ∧
       Comment.eq a PyVal.otherVal = false) ∧
     (∀ a : Comment, Comment.eq a (.comment a) = true) ∧
     (∀ a b : Comment, Comment.eq a (.comment b) = Comment.eq b (.comment a)) ∧
     (∀ a b c : Comment, Comment.eq a (.comment b) = true → Comment.eq b (.comment c) = true →
       Comment.eq a (.comment c) = true)) := by
  refine ⟨⟨fun a b => by simp [User.eq], fun a => by simp [User.eq],
      fun a m s i c => by simp [User.eq],
      fun a => by simp [User.eq],
      fun a b => by simp only [User.eq]; exact natBeqComm a.id b.id,
      fun a b c h1 h2 => by
        simp only [User.eq, beq_iff_eq] at h1 h2 ⊢; omega⟩,
    ⟨fun a b => by simp [UserAssignedWorkplace.eq], fun a => by simp [UserAssignedWorkplace.eq],
      fun a u s i c => by simp [UserAssignedWorkplace.eq],
      fun a => by simp [UserAssignedWorkplace.eq],
      fun a b => by simp only [UserAssignedWorkplace.eq]; exact natBeqComm a.id b.id,
      fun a b c h1 h2 => by
        simp only [UserAssignedWorkplace.eq, beq_iff_eq] at h1 h2 ⊢; omega⟩,
    ⟨fun a b => by simp [Sprint.eq], fun a => by simp [Sprint.eq],
      fun a u m i c => by simp [Sprint.eq],
      fun a => by simp [Sprint.eq],
      fun a b => by simp only [Sprint.eq]; exact natBeqComm a.id b.id,
      fun a b c h1 h2 => by
        simp only [Sprint.eq, beq_iff_eq] at h1 h2 ⊢; omega⟩,
    ⟨fun a b => by simp [Issue.eq], fun a => by simp [Issue.eq],
      fun a u m s c => by simp [Issue.eq],
      fun a => by simp [Issue.eq],
      fun a b => by simp only [Issue.eq]; exact natBeqComm a.id b.id,
      fun a b c h1 h2 => by
        simp only [Issue.eq, beq_iff_eq] at h1 h2 ⊢; omega⟩,
    ⟨fun a b => by simp [Comment.eq], fun a => by simp [Comment.eq],
      fun a u m s i => by simp [Comment.eq],
      fun a => by simp [Comment.eq],
      fun a b => by simp only [Comment.eq]; exact natBeqComm a.id b.id,
      fun a b c h1 h2 => by
        simp only [Comment.eq, beq_iff_eq] at h1 h2 ⊢; omega⟩⟩

/-- C7: reading the `created` property raises `AttributeError` for every
user, because `uuid.UUID` identifiers carry no `generation_time` attribute
(that accessor belongs to `bson.ObjectId`), so the property never returns
the documented creation timestamp. -/
theorem c7_user_created_raises :
    ∀ u : User, User.created u =
      Except.error (DomainError.attributeError "generation_time") :=
  fun _ => rfl

/-- Store after a user (identifier 7) has created a workplace: workplace 0
with ADMIN membership 1. -/
def c8Created : State := create_workplace initialState ⟨"Proj"⟩ 7

/-- Store after that workplace has been deleted again. -/
def c8Deleted : State := applyOp (.deleteWorkplace 0) c8Created

/-- C8: repeating the delete on the already-deleted workplace identifier
does not produce the NotFound domain error: `find_one` yields `None` and the
subsequent `.delete` attribute access crashes with `AttributeError`; indeed
no outcome of `delete_workplace` is ever the NotFound error. -/
theorem c8_delete_missing_id_crashes :
    findWorkplace c8Deleted 0 = none ∧
    Workplace.deleteCascade c8Deleted 0 =
      Except.error (DomainError.attributeError "delete") ∧
    ∀ (st : State) (wid : Nat),
      Workplace.deleteCascade st wid ≠ Except.error DomainError.notFound := by
  refine ⟨by decide, by decide, ?_⟩
  intro st wid
  unfold Workplace.deleteCascade
  dsimp only
  split
  · intro h; cases h
  · intro h; cases h

/-- Store with workplace 0 owning sprint 1 and issue 2, where issue 2 is
assigned to sprint 1 (it is listed in both the workplace's and the sprint's
issue collections). -/
def c3State : State :=
  { memberships := [], workplaces := [⟨0, "W", statesDefault, [], [1], [2]⟩],
    sprints := [⟨1, 20240101, 20240110, [2]⟩],
    issues := [⟨2, 0, none, []⟩], next := 3 }

/-- The same store after issue 2 has been deleted. -/
def c3After : State :=
  { memberships := [], workplaces := [⟨0, "W", statesDefault, [], [1], []⟩],
    sprints := [⟨1, 20240101, 20240110, [2]⟩],
    issues := [], next := 3 }

/-- C3: deleting an issue that is assigned to a sprint removes it from the
workplace's issue collection and persists that change, and removes the
record — but the sprint's issue collection still lists the deleted
identifier afterwards, because the hook calls `self.sprint.save()` without
`await`, so that sibling update is never persisted. -/
theorem c3_issue_delete_sprint_update_not_persisted :
    Issue.deleteOne c3State 2 = Except.ok c3After ∧
    findIssue c3After 2 = none ∧
    findWorkplace c3After 0 = some ⟨0, "W", statesDefault, [], [1], []⟩ ∧
    findSprint c3After 1 = some ⟨1, 20240101, 20240110, [2]⟩ := by
  refine ⟨by decide, by decide, by decide, by decide⟩

/-- Two predicates that agree pointwise find the same first element. -/
theorem find?_congrPred {α : Type} (p q : α → Bool) (l : List α)
    (h : ∀ a, p a = q a) : l.find? p = l.find? q := by
  induction l with
  | nil => rfl
  | cons x xs ih => rw [List.find?_cons, List.find?_cons, h x, ih]

/-- Finding a workplace by identifier commutes with a save that replaces the
record with identifier `wid` by an identifier-preserving update. -/
theorem find?_updateWorkplace (l : List Workplace) (wid : Nat)
    (f : Workplace → Workplace) (hid : ∀ w, (f w).id = w.id) (wid' : Nat) :
    (updateWorkplace l wid f).find? (fun w => w.id == wid') =
      (l.find? (fun w => w.id == wid')).map
        (fun w => if w.id == wid then f w else w) := by
  unfold updateWorkplace
  rw [List.find?_map]
  rw [find?_congrPred _ (fun w => w.id == wid') l]
  intro a
  by_cases hc : (a.id == wid) = true
  · simp only [Function.comp, hc, if_true, hid]
  · simp only [Function.comp, hc, if_false]
    rw [Bool.not_eq_true] at hc
    simp [hc]

/-- C10: creating a workplace makes its membership collection exactly one
new membership, whose user is the creator and whose role is ADMIN, and that
membership's back-reference resolves to the new workplace — the creation
route is what links the creator to the workplace. -/
theorem c10_creator_sole_admin (st : State) (c : WorkplaceCreation) (uid : Nat)
    (hfresh : ∀ w ∈ st.workplaces, ∀ mid ∈ w.users, mid < st.next) :
    ∃ (w : Workplace) (m : UserAssignedWorkplace),
      (create_workplace st c uid).workplaces = st.workplaces ++ [w] ∧
      w.users = [m.id] ∧
      m ∈ (create_workplace st c uid).memberships ∧
      m.userId = uid ∧ m.role = Role.ADMIN ∧
      membershipWorkplace (create_workplace st c uid) m.id = some w := by
  refine ⟨⟨st.next, c.name, statesDefault, [st.next + 1], [], []⟩,
    ⟨st.next + 1, uid, Role.ADMIN⟩, rfl, rfl, ?_, rfl, rfl, ?_⟩
  · exact List.mem_append_right _ (List.mem_singleton.mpr rfl)
  · unfold membershipWorkplace create_workplace
    dsimp only
    rw [List.find?_append]
    have h1 : st.workplaces.find? (fun w => w.users.contains (st.next + 1)) = none := by
      rw [List.find?_eq_none]
      intro w hw hc
      have hmem : st.next + 1 ∈ w.users := List.elem_iff.mp hc
      have := hfresh w hw (st.next + 1) hmem
      omega
    rw [h1]
    simp [List.find?, List.contains]

/-- C10 witness: the creator's sole ADMIN membership in the first workplace
created on an empty store. -/
theorem c10_creator_sole_admin_witness :
    ∃ (w : Workplace) (m : UserAssignedWorkplace),
      (create_workplace initialState ⟨"W"⟩ 7).workplaces =
        initialState.workplaces ++ [w] ∧
      w.users = [m.id] ∧
      m ∈ (create_workplace initialState ⟨"W"⟩ 7).memberships ∧
      m.userId = 7 ∧ m.role = Role.ADMIN ∧
      membershipWorkplace (create_workplace initialState ⟨"W"⟩ 7) m.id = some w :=
  c10_creator_sole_admin initialState ⟨"W"⟩ 7
    (by intro w hw mid hm; simp [initialState] at hw)

/-- C6: editing an existing workplace applies merge-patch semantics — the
stored record afterwards carries the supplied creation fields (the name) and
the previous values of every other field (states, users, sprints, issues),
and nothing else in the store changes. -/
theorem c6_edit_workplace_merge_patch (st : State) (wid : Nat)
    (c : WorkplaceCreation) (w : Workplace) (h : findWorkplace st wid = some w) :
    ∃ st', edit_workplace st wid c = Except.ok st' ∧
      findWorkplace st' wid =
        some { id := w.id, name := c.name, states := w.states, users := w.users,
               sprints := w.sprints, issues := w.issues } ∧
      st'.memberships = st.memberships ∧ st'.sprints = st.sprints ∧
      st'.issues = st.issues ∧ st'.next = st.next ∧
      ∀ wid', wid' ≠ wid → findWorkplace st' wid' = findWorkplace st wid' := by
  refine ⟨{ st with
    workplaces := updateWorkplace st.workplaces wid (fun w' => { w' with name := c.name }) },
    ?_, ?_, rfl, rfl, rfl, rfl, ?_⟩
  · unfold edit_workplace
    rw [h]
  · unfold findWorkplace at h ⊢
    have hw := List.find?_some h
    dsimp only
    rw [find?_updateWorkplace st.workplaces wid
      (fun w' => { w' with name := c.name }) (fun _ => rfl) wid, h]
    simp [hw]
    exact fun hcon => absurd (beq_iff_eq.mp hw) hcon
  · intro wid' hne
    unfold findWorkplace
    dsimp only
    rw [find?_updateWorkplace st.workplaces wid
      (fun w' => { w' with name := c.name }) (fun _ => rfl) wid']
    cases hf : st.workplaces.find? (fun w2 => w2.id == wid') with
    | none => rfl
    | some x =>
        have hx := List.find?_some hf
        rw [beq_iff_eq] at hx
        have hxx : (x.id == wid) = false := by
          rw [hx]
          exact beq_eq_false_iff_ne.mpr hne
        simp [hxx]
        exact fun hcon => absurd (hx.symm.trans hcon) hne

/-- Store with one workplace (identifier 0) whose collections are nonempty,
for the merge-patch witness. -/
def c6State : State :=
  { memberships := [], workplaces := [⟨0, "Old", statesDefault, [5], [6], [7]⟩],
    sprints := [], issues := [], next := 1 }

/-- C6 witness: renaming workplace 0 keeps its states, users, sprints and
issues. -/
theorem c6_edit_workplace_merge_patch_witness :
    ∃ st', edit_workplace c6State 0 ⟨"New"⟩ = Except.ok st' ∧
      findWorkplace st' 0 =
        some { id := 0, name := "New", states := statesDefault, users := [5],
               sprints := [6], issues := [7] } ∧
      st'.memberships = c6State.memberships ∧ st'.sprints = c6State.sprints ∧
      st'.issues = c6State.issues ∧ st'.next = c6State.next ∧
      ∀ wid', wid' ≠ 0 → findWorkplace st' wid' = findWorkplace c6State wid' :=
  c6_edit_workplace_merge_patch c6State 0 ⟨"New"⟩
    ⟨0, "Old", statesDefault, [5], [6], [7]⟩ (by decide)

/-- Filtering away every element that could satisfy `p` leaves nothing for
`find?` to find. -/
theorem find?_filter_none {α : Type} (p q : α → Bool) (l : List α)
    (h : ∀ x ∈ l, q x = true → p x = false) : (l.filter q).find? p = none := by
  rw [List.find?_eq_none]
  intro x hx
  obtain ⟨hxl, hq⟩ := List.mem_filter.mp hx
  simp [h x hxl hq]

/-- C4: deleting a sprint removes its identifier from the owning workplace's
sprint collection and persists that change, leaves every issue the sprint
contained in the store untouched, and afterwards each such issue's sprint
back-reference resolves to none. -/
theorem c4_sprint_delete_detaches_issues (st : State) (sid : Nat) (s : Sprint)
    (w : Workplace)
    (hs : findSprint st sid = some s)
    (hw : sprintWorkplace st sid = some w)
    (hfw : findWorkplace st w.id = some w)
    (hnd : w.sprints.Nodup)
    (huniq : ∀ iid ∈ s.issues, ∀ s' ∈ st.sprints, iid ∈ s'.issues → s'.id = sid) :
    ∃ st', Sprint.deleteOne st sid = Except.ok st' ∧
      findWorkplace st' w.id = some { w with sprints := w.sprints.erase sid } ∧
      sid ∉ w.sprints.erase sid ∧
      findSprint st' sid = none ∧
      (∀ iid ∈ s.issues, findIssue st' iid = findIssue st iid) ∧
      (∀ iid ∈ s.issues, issueSprint st' iid = none) := by
  refine ⟨{ st with
      workplaces := updateWorkplace st.workplaces w.id
        (fun w' => { w' with sprints := w'.sprints.erase sid }),
      sprints := st.sprints.filter (fun s' => !(s'.id == sid)) },
    ?_, ?_, ?_, ?_, fun iid _ => rfl, ?_⟩
  · unfold Sprint.deleteOne
    rw [hs, hw]
  · unfold findWorkplace at hfw ⊢
    dsimp only
    rw [find?_updateWorkplace st.workplaces w.id
      (fun w' => { w' with sprints := w'.sprints.erase sid }) (fun _ => rfl) w.id, hfw]
    simp
  · intro hmem
    exact absurd rfl ((List.Nodup.mem_erase_iff hnd).mp hmem).1
  · unfold findSprint
    dsimp only
    exact find?_filter_none _ _ _ (fun x _ hq => by
      rw [Bool.not_eq_eq_eq_not, Bool.not_true] at hq
      exact hq)
  · intro iid hiid
    unfold issueSprint
    dsimp only
    refine find?_filter_none _ _ _ (fun x hx hq => ?_)
    rw [Bool.not_eq_eq_eq_not, Bool.not_true, beq_eq_false_iff_ne] at hq
    by_cases hc : iid ∈ x.issues
    · exact absurd (huniq iid hiid x hx hc) hq
    · exact Bool.not_eq_true _ ▸ (by simp [List.elem_iff, hc])

/-- Store with workplace 0 owning sprint 1, which contains issue 2, for the
sprint-deletion witness. -/
def c4State : State :=
  { memberships := [], workplaces := [⟨0, "W", statesDefault, [], [1], [2]⟩],
    sprints := [⟨1, 20240101, 20240110, [2]⟩],
    issues := [⟨2, 0, none, []⟩], next := 3 }

/-- C4 witness: deleting sprint 1 of the concrete store detaches issue 2
without deleting it. -/
theorem c4_sprint_delete_detaches_issues_witness :
    ∃ st', Sprint.deleteOne c4State 1 = Except.ok st' ∧
      findWorkplace st' 0 =
        some { id := 0, name := "W", states := statesDefault, users := [],
               sprints := List.erase [1] 1, issues := [2] } ∧
      (1 : Nat) ∉ List.erase [1] 1 ∧
      findSprint st' 1 = none ∧
      (∀ iid ∈ [2], findIssue st' iid = findIssue c4State iid) ∧
      (∀ iid ∈ [2], issueSprint st' iid = none) :=
  c4_sprint_delete_detaches_issues c4State 1 ⟨1, 20240101, 20240110, [2]⟩
    ⟨0, "W", statesDefault, [], [1], [2]⟩ (by decide) (by decide) (by decide)
    (by decide) (by decide)

/-- Folding preserves any property each step preserves. -/
theorem foldl_preserveP {σ α : Type} (f : σ → α → σ) (P : σ → Prop)
    (h : ∀ s x, P s → P (f s x)) : ∀ (l : List α) (s : σ), P s → P (l.foldl f s) := by
  intro l
  induction l with
  | nil => intro s hs; exact hs
  | cons x xs ih => intro s hs; exact ih _ (h s x hs)

/-- Folding over a list containing `a` establishes any step-preserved
property that the step at `a` establishes unconditionally. -/
theorem foldl_achieveP {σ α : Type} (f : σ → α → σ) (P : σ → Prop)
    (hpres : ∀ s x, P s → P (f s x)) (a : α) (hach : ∀ s, P (f s a)) :
    ∀ (l : List α) (s : σ), a ∈ l → P (l.foldl f s) := by
  intro l
  induction l with
  | nil => intro s ha; cases ha
  | cons x xs ih =>
      intro s ha
      rcases List.mem_cons.mp ha with rfl | hxs
      · exact foldl_preserveP f P hpres xs _ (hach s)
      · exact ih _ hxs

/-- Folding over a list containing `a` establishes a step-preserved property
that the step at `a` establishes from a step-preserved invariant. -/
theorem foldl_invAchieveP {σ α : Type} (f : σ → α → σ) (Q P : σ → Prop)
    (hQ : ∀ s x, Q s → Q (f s x)) (hpres : ∀ s x, P s → P (f s x)) (a : α)
    (hach : ∀ s, Q s → P (f s a)) :
    ∀ (l : List α) (s : σ), Q s → a ∈ l → P (l.foldl f s) := by
  intro l
  induction l with
  | nil => intro s _ ha; cases ha
  | cons x xs ih =>
      intro s hq ha
      rcases List.mem_cons.mp ha with rfl | hxs
      · exact foldl_preserveP f P hpres xs _ (hach s hq)
      · exact ih _ (hQ s x hq) hxs

/-- Filtering away only elements that cannot satisfy `p` does not change
what `find?` finds. -/
theorem find?_filter_stable {α : Type} (p q : α → Bool) (l : List α)
    (h : ∀ y, p y = true → q y = true) : (l.filter q).find? p = l.find? p := by
  induction l with
  | nil => rfl
  | cons x xs ih =>
      by_cases hq : q x = true
      · rw [List.filter_cons_of_pos hq, List.find?_cons, List.find?_cons, ih]
      · rw [List.filter_cons_of_neg hq, List.find?_cons, ih]
        have hp : p x = false := by
          cases hpx : p x
          · rfl
          · exact absurd (h x hpx) hq
        rw [hp]

/-- Filtering cannot make `find?` succeed where it failed. -/
theorem find?_none_of_filter {α : Type} (p q : α → Bool) (l : List α)
    (h : l.find? p = none) : (l.filter q).find? p = none := by
  rw [List.find?_eq_none] at h ⊢
  intro x hx
  exact h x (List.mem_filter.mp hx).1

/-- A `find?` over a list returns the unique element satisfying the
predicate. -/
theorem find?_unique {α : Type} (p : α → Bool) (l : List α) (a : α)
    (ha : a ∈ l) (hpa : p a = true) (huq : ∀ b ∈ l, p b = true → b = a) :
    l.find? p = some a := by
  induction l with
  | nil => cases ha
  | cons x xs ih =>
      rw [List.find?_cons]
      by_cases hx : p x = true
      · rw [hx]
        simp [huq x (List.mem_cons_self x xs) hx]
      · have hxf : p x = false := Bool.not_eq_true _ ▸ hx
        rw [hxf]
        simp only [Bool.false_eq_true, if_false]
        rcases List.mem_cons.mp ha with rfl | hxs
        · exact absurd hpa hx
        · exact ih hxs (fun b hb => huq b (List.mem_cons_of_mem _ hb))

/-- Deleting an issue during a cascade does not touch the membership
store. -/
theorem memberships_deleteIssueCascade (st : State) (iid : Nat) :
    (deleteIssueCascade st iid).memberships = st.memberships := by
  unfold deleteIssueCascade
  cases findIssue st iid
  · rfl
  · cases issueWorkplace st iid <;> rfl

/-- Deleting an issue during a cascade does not touch the sprint store (the
hook's sprint-side update is never persisted). -/
theorem sprints_deleteIssueCascade (st : State) (iid : Nat) :
    (deleteIssueCascade st iid).sprints = st.sprints := by
  unfold deleteIssueCascade
  cases findIssue st iid
  · rfl
  · cases issueWorkplace st iid <;> rfl

/-- Deleting an issue during a cascade removes exactly the records with that
identifier from the issue store. -/
theorem issues_deleteIssueCascade (st : State) (iid : Nat) :
    (deleteIssueCascade st iid).issues =
      st.issues.filter (fun i => !(i.id == iid)) := by
  unfold deleteIssueCascade
  cases hf : findIssue st iid with
  | none =>
      unfold findIssue at hf
      rw [List.find?_eq_none] at hf
      refine (List.filter_eq_self.mpr ?_).symm
      intro x hx
      cases hpx : (x.id == iid)
      · rfl
      · exact absurd hpx (hf x hx)
  | some i =>
      cases issueWorkplace st iid <;> rfl

/-- The issue record with a given identifier is gone right after its cascade
step. -/
theorem findIssue_achieve_deleteIssueCascade (st : State) (iid : Nat) :
    findIssue (deleteIssueCascade st iid) iid = none := by
  unfold findIssue
  rw [issues_deleteIssueCascade]
  refine find?_filter_none _ _ _ (fun x _ hq => ?_)
  rwa [Bool.not_eq_eq_eq_not, Bool.not_true] at hq

/-- An already-deleted issue stays deleted across later issue cascade
steps. -/
theorem findIssue_none_deleteIssueCascade (st : State) (iid x : Nat)
    (h : findIssue st iid = none) :
    findIssue (deleteIssueCascade st x) iid = none := by
  unfold findIssue at h ⊢
  rw [issues_deleteIssueCascade]
  exact find?_none_of_filter _ _ _ h

/-- Deleting a sprint during a cascade does not touch the membership
store. -/
theorem memberships_deleteSprintCascade (st : State) (sid : Nat) :
    (deleteSprintCascade st sid).memberships = st.memberships := by
  unfold deleteSprintCascade
  cases hf : findSprint st sid with
  | none => rfl
  | some s =>
      dsimp only
      exact foldl_preserveP deleteIssueCascade
        (fun σ => σ.memberships = st.memberships)
        (fun σ x h => (memberships_deleteIssueCascade σ x).trans h)
        s.issues _ (by cases sprintWorkplace st sid <;> rfl)

/-- Deleting a sprint during a cascade removes exactly the records with that
identifier from the sprint store. -/
theorem sprints_deleteSprintCascade (st : State) (sid : Nat) :
    (deleteSprintCascade st sid).sprints =
      st.sprints.filter (fun s' => !(s'.id == sid)) := by
  unfold deleteSprintCascade
  cases hf : findSprint st sid with
  | none =>
      unfold findSprint at hf
      rw [List.find?_eq_none] at hf
      refine (List.filter_eq_self.mpr ?_).symm
      intro x hx
      cases hpx : (x.id == sid)
      · rfl
      · exact absurd hpx (hf x hx)
  | some s =>
      dsimp only
      have hsp : (s.issues.foldl deleteIssueCascade
          (match sprintWorkplace st sid with
           | none => st
           | some w =>
               let ws := updateWorkplace st.workplaces w.id
                 (fun w' => { w' with sprints := w'.sprints.erase sid })
               { st with workplaces := ws })).sprints = st.sprints :=
        foldl_preserveP deleteIssueCascade (fun σ => σ.sprints = st.sprints)
          (fun σ x h => (sprints_deleteIssueCascade σ x).trans h)
          s.issues _ (by cases sprintWorkplace st sid <;> rfl)
      rw [hsp]

/-- A sprint record absent from the store stays absent after an issue
cascade step. -/
theorem findSprint_none_deleteIssueCascade (st : State) (sid x : Nat)
    (h : findSprint st sid = none) :
    findSprint (deleteIssueCascade st x) sid = none := by
  unfold findSprint at h ⊢
  rw [sprints_deleteIssueCascade]
  exact h

/-- A sprint record absent from the store stays absent after a sprint
cascade step. -/
theorem findSprint_none_deleteSprintCascade (st : State) (sid x : Nat)
    (h : findSprint st sid = none) :
    findSprint (deleteSprintCascade st x) sid = none := by
  unfold findSprint at h ⊢
  rw [sprints_deleteSprintCascade]
  exact find?_none_of_filter _ _ _ h

/-- The sprint record with a given identifier is gone right after its
cascade step. -/
theorem findSprint_achieve_deleteSprintCascade (st : State) (sid : Nat) :
    findSprint (deleteSprintCascade st sid) sid = none := by
  unfold findSprint
  rw [sprints_deleteSprintCascade]
  refine find?_filter_none _ _ _ (fun x _ hq => ?_)
  rwa [Bool.not_eq_eq_eq_not, Bool.not_true] at hq

/-- A sprint cascade step for a different identifier leaves a sprint's
record lookup unchanged. -/
theorem findSprint_stable_deleteSprintCascade (st : State) (sid x : Nat)
    (hne : x ≠ sid) :
    findSprint (deleteSprintCascade st x) sid = findSprint st sid := by
  unfold findSprint
  rw [sprints_deleteSprintCascade]
  refine find?_filter_stable _ _ _ (fun y hp => ?_)
  rw [beq_iff_eq] at hp
  rw [Bool.not_eq_eq_eq_not, Bool.not_true, beq_eq_false_iff_ne]
  omega

/-- An issue record absent from the store stays absent after a sprint
cascade step. -/
theorem findIssue_none_deleteSprintCascade (st : State) (iid x : Nat)
    (h : findIssue st iid = none) :
    findIssue (deleteSprintCascade st x) iid = none := by
  unfold deleteSprintCascade
  cases hf : findSprint st x with
  | none => exact h
  | some s =>
      dsimp only
      unfold findIssue at h ⊢
      dsimp only
      exact foldl_preserveP deleteIssueCascade
        (fun σ => σ.issues.find? (fun i => i.id == iid) = none)
        (fun σ y hp => by
          dsimp only at hp ⊢
          rw [issues_deleteIssueCascade]
          exact find?_none_of_filter _ _ _ hp)
        s.issues _ (by cases sprintWorkplace st x <;> exact h)

/-- Every issue a sprint contains is gone from the store right after that
sprint's cascade step. -/
theorem issuesGone_deleteSprintCascade (st : State) (sid : Nat) (s : Sprint)
    (hf : findSprint st sid = some s) (iid : Nat) (hiid : iid ∈ s.issues) :
    findIssue (deleteSprintCascade st sid) iid = none := by
  unfold deleteSprintCascade
  rw [hf]
  dsimp only
  unfold findIssue
  dsimp only
  exact foldl_achieveP deleteIssueCascade
    (fun σ => σ.issues.find? (fun i => i.id == iid) = none)
    (fun σ y hp => by
      dsimp only at hp ⊢
      rw [issues_deleteIssueCascade]
      exact find?_none_of_filter _ _ _ hp)
    iid
    (fun σ => by
      dsimp only
      rw [issues_deleteIssueCascade]
      refine find?_filter_none _ _ _ (fun y _ hq => ?_)
      rwa [Bool.not_eq_eq_eq_not, Bool.not_true] at hq)
    s.issues _ hiid

/-- A sprint cascade fold does not touch the membership store. -/
theorem memberships_foldSprint (base : State) (l : List Nat) :
    (l.foldl deleteSprintCascade base).memberships = base.memberships :=
  foldl_preserveP deleteSprintCascade (fun σ => σ.memberships = base.memberships)
    (fun σ x h => (memberships_deleteSprintCascade σ x).trans h) l base rfl

/-- An issue cascade fold does not touch the membership store. -/
theorem memberships_foldIssue (base : State) (l : List Nat) :
    (l.foldl deleteIssueCascade base).memberships = base.memberships :=
  foldl_preserveP deleteIssueCascade (fun σ => σ.memberships = base.memberships)
    (fun σ x h => (memberships_deleteIssueCascade σ x).trans h) l base rfl

/-- After the sprint cascade fold, every listed sprint identifier is gone
from the sprint store. -/
theorem sprintsGone_foldSprint (base : State) (l : List Nat) (sid : Nat)
    (h : sid ∈ l) :
    findSprint (l.foldl deleteSprintCascade base) sid = none :=
  foldl_achieveP deleteSprintCascade (fun σ => findSprint σ sid = none)
    (fun σ x hp => findSprint_none_deleteSprintCascade σ sid x hp)
    sid (fun σ => findSprint_achieve_deleteSprintCascade σ sid) l base h

/-- An absent sprint record stays absent across the issue cascade fold. -/
theorem sprintNone_foldIssue (base : State) (l : List Nat) (sid : Nat)
    (h : findSprint base sid = none) :
    findSprint (l.foldl deleteIssueCascade base) sid = none :=
  foldl_preserveP deleteIssueCascade (fun σ => findSprint σ sid = none)
    (fun σ x hp => findSprint_none_deleteIssueCascade σ sid x hp) l base h

/-- After the issue cascade fold, every listed issue identifier is gone from
the issue store. -/
theorem issuesGone_foldIssue (base : State) (l : List Nat) (iid : Nat)
    (h : iid ∈ l) :
    findIssue (l.foldl deleteIssueCascade base) iid = none :=
  foldl_achieveP deleteIssueCascade (fun σ => findIssue σ iid = none)
    (fun σ x hp => findIssue_none_deleteIssueCascade σ iid x hp)
    iid (fun σ => findIssue_achieve_deleteIssueCascade σ iid) l base h

/-- An absent issue record stays absent across the issue cascade fold. -/
theorem issueNone_foldIssue (base : State) (l : List Nat) (iid : Nat)
    (h : findIssue base iid = none) :
    findIssue (l.foldl deleteIssueCascade base) iid = none :=
  foldl_preserveP deleteIssueCascade (fun σ => findIssue σ iid = none)
    (fun σ x hp => findIssue_none_deleteIssueCascade σ iid x hp) l base h

/-- After the sprint cascade fold, every issue contained in a listed sprint
is gone from the issue store: the sprint's record is unchanged until its own
step runs (earlier steps only remove other sprint records and never modify
sprint records), and that step deletes all its linked issues. -/
theorem sprintOwnedGone_foldSprint (base : State) (l : List Nat) (sid : Nat)
    (s : Sprint) (iid : Nat) (hmem : sid ∈ l) (hs : findSprint base sid = some s)
    (hiid : iid ∈ s.issues) :
    findIssue (l.foldl deleteSprintCascade base) iid = none := by
  refine foldl_invAchieveP deleteSprintCascade
    (fun σ => findSprint σ sid = some s ∨ findIssue σ iid = none)
    (fun σ => findIssue σ iid = none) ?_ ?_ sid ?_ l base (Or.inl hs) hmem
  · intro σ x hq
    rcases hq with hl | hr
    · by_cases hx : x = sid
      · subst hx
        exact Or.inr (issuesGone_deleteSprintCascade σ x s hl iid hiid)
      · exact Or.inl ((findSprint_stable_deleteSprintCascade σ sid x hx).trans hl)
    · exact Or.inr (findIssue_none_deleteSprintCascade σ iid x hr)
  · intro σ x hp
    exact findIssue_none_deleteSprintCascade σ iid x hp
  · intro σ hq
    rcases hq with hl | hr
    · exact issuesGone_deleteSprintCascade σ sid s hl iid hiid
    · exact findIssue_none_deleteSprintCascade σ iid sid hr

/-- An issue cascade fold does not touch the sprint store. -/
theorem sprints_foldIssue (base : State) (l : List Nat) :
    (l.foldl deleteIssueCascade base).sprints = base.sprints :=
  foldl_preserveP deleteIssueCascade (fun σ => σ.sprints = base.sprints)
    (fun σ x h => (sprints_deleteIssueCascade σ x).trans h) l base rfl

/-- C2: deleting a workplace deletes every membership whose back-reference
is that workplace and cascade-deletes every sprint and issue it owns,
transitively (including the issues listed by its sprints): afterwards none
of them is findable by its identifier, and neither is the workplace. -/
theorem c2_workplace_delete_cascades (st : State) (wid : Nat) (w : Workplace)
    (hfw : findWorkplace st wid = some w)
    (huniq : ∀ mid ∈ w.users, ∀ w' ∈ st.workplaces, mid ∈ w'.users → w' = w) :
    ∃ st', Workplace.deleteCascade st wid = Except.ok st' ∧
      findWorkplace st' wid = none ∧
      (∀ mid ∈ w.users, findMembership st' mid = none) ∧
      (∀ sid ∈ w.sprints, findSprint st' sid = none) ∧
      (∀ iid ∈ w.issues, findIssue st' iid = none) ∧
      (∀ sid ∈ w.sprints, ∀ s : Sprint, findSprint st sid = some s →
        ∀ iid ∈ s.issues, findIssue st' iid = none) := by
  have hpw := List.find?_some hfw
  have hwid : w.id = wid := by simpa using hpw
  have hwmem : w ∈ st.workplaces := List.mem_of_find?_eq_some hfw
  refine ⟨{ (w.issues.foldl deleteIssueCascade (w.sprints.foldl deleteSprintCascade { st with memberships := st.memberships.filter (fun m => !((membershipWorkplace st m.id).map Workplace.id == some wid)) })) with workplaces := (w.issues.foldl deleteIssueCascade (w.sprints.foldl deleteSprintCascade { st with memberships := st.memberships.filter (fun m => !((membershipWorkplace st m.id).map Workplace.id == some wid)) })).workplaces.filter (fun w' => !(w'.id == wid)) },
    ?hrun, ?g2, ?g3, ?g4, ?g5, ?g6⟩
  case hrun =>
    unfold Workplace.deleteCascade
    dsimp only
    rw [show findWorkplace { st with memberships := st.memberships.filter (fun m => !((membershipWorkplace st m.id).map Workplace.id == some wid)) } wid = some w from hfw]
  case g2 =>
    unfold findWorkplace
    dsimp only
    refine find?_filter_none _ _ _ (fun x _ hq => ?_)
    rwa [Bool.not_eq_eq_eq_not, Bool.not_true] at hq
  case g3 =>
    intro mid hmid
    unfold findMembership
    dsimp only
    rw [memberships_foldIssue, memberships_foldSprint]
    dsimp only
    refine find?_filter_none _ _ _ (fun m _ hq => ?_)
    by_cases hc : m.id = mid
    · have hres : membershipWorkplace st mid = some w :=
        find?_unique _ _ w hwmem (List.elem_iff.mpr hmid)
          (fun b hb hpb => huniq mid hmid b hb (List.elem_iff.mp hpb))
      rw [hc, hres] at hq
      simp [hwid] at hq
    · exact beq_eq_false_iff_ne.mpr hc
  case g4 =>
    intro sid hsid
    unfold findSprint
    dsimp only
    rw [sprints_foldIssue]
    exact sprintsGone_foldSprint _ _ _ hsid
  case g5 =>
    intro iid hiid
    unfold findIssue
    dsimp only
    exact issuesGone_foldIssue _ _ _ hiid
  case g6 =>
    intro sid hsid s hfs iid hiid
    have hfs0 : findSprint { st with memberships := st.memberships.filter (fun m => !((membershipWorkplace st m.id).map Workplace.id == some wid)) } sid = some s := hfs
    unfold findIssue
    dsimp only
    exact issueNone_foldIssue _ _ _
      (sprintOwnedGone_foldSprint _ _ _ _ _ hsid hfs0 hiid)

/-- Store with two workplaces: workplace 0 owns membership 1, sprint 3
(containing issue 5) and issue 4; workplace 20 owns membership 10. -/
def c2State : State :=
  { memberships := [⟨1, 9, Role.ADMIN⟩, ⟨10, 8, Role.MEMBER⟩],
    workplaces := [⟨0, "W", statesDefault, [1], [3], [4]⟩,
                   ⟨20, "V", statesDefault, [10], [], []⟩],
    sprints := [⟨3, 20240101, 20240110, [5]⟩],
    issues := [⟨4, 0, none, []⟩, ⟨5, 0, none, []⟩], next := 30 }

/-- C2 witness: deleting workplace 0 of the concrete store removes its
membership, its sprint, its direct issue, and its sprint's issue. -/
theorem c2_workplace_delete_cascades_witness :
    ∃ st', Workplace.deleteCascade c2State 0 = Except.ok st' ∧
      findWorkplace st' 0 = none ∧
      (∀ mid ∈ ([1] : List Nat), findMembership st' mid = none) ∧
      (∀ sid ∈ ([3] : List Nat), findSprint st' sid = none) ∧
      (∀ iid ∈ ([4] : List Nat), findIssue st' iid = none) ∧
      (∀ sid ∈ ([3] : List Nat), ∀ s : Sprint, findSprint c2State sid = some s →
        ∀ iid ∈ s.issues, findIssue st' iid = none) :=
  c2_workplace_delete_cascades c2State 0 ⟨0, "W", statesDefault, [1], [3], [4]⟩
    (by decide) (by decide)

/-- Invariant of reachable stores: workplace identifiers are distinct, all
identifiers are below the generation counter, no membership identifier is
listed by two different workplaces, and every listed membership identifier
has a membership document. -/
def StoreInv (st : State) : Prop :=
  (st.workplaces.map Workplace.id).Nodup ∧
  (∀ w ∈ st.workplaces, w.id < st.next ∧ ∀ mid ∈ w.users, mid < st.next) ∧
  (∀ w ∈ st.workplaces, ∀ w' ∈ st.workplaces, ∀ mid,
    mid ∈ w.users → mid ∈ w'.users → w = w') ∧
  (∀ w ∈ st.workplaces, ∀ mid ∈ w.users, ∃ m ∈ st.memberships, m.id = mid)

/-- Two workplaces of a store with distinct identifiers that share an
identifier are the same record. -/
theorem eq_of_nodup_ids (l : List Workplace) (h : (l.map Workplace.id).Nodup)
    (a b : Workplace) (ha : a ∈ l) (hb : b ∈ l) (hid : a.id = b.id) : a = b := by
  induction l with
  | nil => cases ha
  | cons x xs ih =>
      rw [List.map_cons, List.nodup_cons] at h
      rcases List.mem_cons.mp ha with rfl | ha' <;>
        rcases List.mem_cons.mp hb with rfl | hb'
      · rfl
      · exact absurd (hid ▸ List.mem_map_of_mem Workplace.id hb') h.1
      · exact absurd (hid ▸ List.mem_map_of_mem Workplace.id ha') h.1
      · exact ih h.2 ha' hb'

/-- Mapping a pointwise-equal function gives the same list. -/
theorem map_congrAll {α β : Type} (f g : α → β) (l : List α)
    (h : ∀ a, f a = g a) : l.map f = l.map g := by
  induction l with
  | nil => rfl
  | cons x xs ih => simp [h x, ih]

/-- Invariant preservation under any operation that rewrites each workplace
record preserving its identifier and membership collection, keeps (at least)
all membership documents, and does not decrease the generation counter; the
sprint and issue stores are irrelevant to the invariant. -/
theorem StoreInv_shape (st : State) (f : Workplace → Workplace)
    (hf : ∀ w, (f w).id = w.id ∧ (f w).users = w.users)
    (ms : List UserAssignedWorkplace) (hms : ∀ m ∈ st.memberships, m ∈ ms)
    (sp : List Sprint) (iss : List Issue) (n : Nat) (hn : st.next ≤ n)
    (h : StoreInv st) :
    StoreInv { memberships := ms, workplaces := st.workplaces.map f,
               sprints := sp, issues := iss, next := n } := by
  obtain ⟨h1, h2, h3, h4⟩ := h
  refine ⟨?_, ?_, ?_, ?_⟩
  · show ((st.workplaces.map f).map Workplace.id).Nodup
    rw [List.map_map,
      map_congrAll (Workplace.id ∘ f) Workplace.id st.workplaces (fun w => (hf w).1)]
    exact h1
  · intro w hw
    obtain ⟨x, hx, rfl⟩ := List.mem_map.mp hw
    obtain ⟨hid, hus⟩ := hf x
    rw [hid, hus]
    dsimp only
    obtain ⟨hb1, hb2⟩ := h2 x hx
    exact ⟨by omega, fun mid hm => by have := hb2 mid hm; omega⟩
  · intro a ha b hb mid hma hmb
    obtain ⟨x, hx, rfl⟩ := List.mem_map.mp ha
    obtain ⟨y, hy, rfl⟩ := List.mem_map.mp hb
    rw [(hf x).2] at hma
    rw [(hf y).2] at hmb
    rw [h3 x hx y hy mid hma hmb]
  · intro w hw mid hm
    obtain ⟨x, hx, rfl⟩ := List.mem_map.mp hw
    rw [(hf x).2] at hm
    obtain ⟨m, hmm, hid⟩ := h4 x hx mid hm
    exact ⟨m, hms m hmm, hid⟩

/-- Invariant preservation by workplace creation: the new workplace and its
single ADMIN membership use fresh identifiers from the counter. -/
theorem StoreInv_create_workplace (st : State) (c : WorkplaceCreation)
    (uid : Nat) (h : StoreInv st) : StoreInv (create_workplace st c uid) := by
  obtain ⟨h1, h2, h3, h4⟩ := h
  unfold create_workplace
  dsimp only
  refine ⟨?_, ?_, ?_, ?_⟩
  · rw [List.map_append]
    refine List.nodup_append.mpr ⟨h1, List.nodup_singleton _, ?_⟩
    intro a ha hb
    obtain ⟨w', hw', rfl⟩ := List.mem_map.mp ha
    have hlt := (h2 w' hw').1
    simp only [List.map_cons, List.map_nil, List.mem_singleton] at hb
    omega
  · intro w hw
    rcases List.mem_append.mp hw with hin | hnew
    · obtain ⟨hb1, hb2⟩ := h2 w hin
      exact ⟨by dsimp only; omega,
        fun mid hm => by have := hb2 mid hm; dsimp only; omega⟩
    · rw [List.mem_singleton] at hnew
      subst hnew
      refine ⟨by dsimp only; omega, fun mid hm => ?_⟩
      simp only [List.mem_singleton] at hm
      dsimp only
      omega
  · intro a ha b hb mid hma hmb
    rcases List.mem_append.mp ha with ha' | ha' <;>
      rcases List.mem_append.mp hb with hb' | hb'
    · exact h3 a ha' b hb' mid hma hmb
    · rw [List.mem_singleton] at hb'
      subst hb'
      have hlt := (h2 a ha').2 mid hma
      simp only [List.mem_singleton] at hmb
      exfalso
      omega
    · rw [List.mem_singleton] at ha'
      subst ha'
      have hlt := (h2 b hb').2 mid hmb
      simp only [List.mem_singleton] at hma
      exfalso
      omega
    · rw [List.mem_singleton] at ha'
      rw [List.mem_singleton] at hb'
      rw [ha', hb']
  · intro w hw mid hm
    rcases List.mem_append.mp hw with hin | hnew
    · obtain ⟨m, hmm, hid⟩ := h4 w hin mid hm
      exact ⟨m, List.mem_append_left _ hmm, hid⟩
    · rw [List.mem_singleton] at hnew
      subst hnew
      simp only [List.mem_singleton] at hm
      exact ⟨⟨st.next + 1, uid, Role.ADMIN⟩,
        List.mem_append_right _ (List.mem_singleton.mpr rfl), hm.symm⟩

/-- Saving an identifier-preserving update keeps the workplace identifier
list, and so its distinctness. -/
theorem nodup_ids_updateWorkplace (l : List Workplace) (wid : Nat)
    (f : Workplace → Workplace) (hid : ∀ w, (f w).id = w.id)
    (h : (l.map Workplace.id).Nodup) :
    ((updateWorkplace l wid f).map Workplace.id).Nodup := by
  have heq : (updateWorkplace l wid f).map Workplace.id = l.map Workplace.id := by
    clear h
    unfold updateWorkplace
    induction l with
    | nil => rfl
    | cons x xs ih =>
        simp only [List.map_cons]
        rw [ih]
        congr 1
        by_cases hx : (x.id == wid) = true
        · rw [if_pos hx]; exact hid x
        · rw [if_neg hx]
  rw [heq]
  exact h

/-- Membership lists of the workplaces after an invitation append: either
the old list, or the old list with the fresh identifier appended. -/
theorem mem_users_invite (a : Workplace) (wid mid newMid : Nat)
    (hm : mid ∈ (if a.id == wid then { a with users := a.users ++ [newMid] }
                 else a).users) :
    mid ∈ a.users ∨ (mid = newMid ∧ a.id = wid) := by
  by_cases hc : (a.id == wid) = true
  · rw [if_pos hc] at hm
    dsimp only at hm
    rcases List.mem_append.mp hm with hold | hnew
    · exact Or.inl hold
    · rw [List.mem_singleton] at hnew
      exact Or.inr ⟨hnew, beq_iff_eq.mp hc⟩
  · rw [if_neg hc] at hm
    exact Or.inl hm

/-- Invariant preservation by the invitation route: a fresh MEMBER
membership is appended to the found workplace and persisted. -/
theorem StoreInv_invite (st : State) (wid uid : Nat) (st2 : State)
    (hok : add_to_workplace st wid uid = Except.ok st2)
    (h : StoreInv st) : StoreInv st2 := by
  obtain ⟨h1, h2, h3, h4⟩ := h
  unfold add_to_workplace at hok
  cases hfw : findWorkplace st wid with
  | none => rw [hfw] at hok; cases hok
  | some w0 =>
      rw [hfw] at hok
      injection hok with hok
      subst hok
      have hfid : ∀ a : Workplace,
          (if a.id == wid then { a with users := a.users ++ [st.next] } else a).id
            = a.id := by
        intro a
        by_cases hc : (a.id == wid) = true
        · rw [if_pos hc]
        · rw [if_neg hc]
      refine ⟨?_, ?_, ?_, ?_⟩
      · show ((updateWorkplace st.workplaces wid _).map Workplace.id).Nodup
        exact nodup_ids_updateWorkplace st.workplaces wid
          (fun w => { w with users := w.users ++ [st.next] }) (fun a => rfl) h1
      · intro w hw
        obtain ⟨x, hx, rfl⟩ := (by
          unfold updateWorkplace at hw
          exact List.mem_map.mp hw)
        obtain ⟨hb1, hb2⟩ := h2 x hx
        refine ⟨by rw [hfid x]; dsimp only; omega, fun mid hm => ?_⟩
        rcases mem_users_invite x wid mid st.next hm with hold | ⟨rfl, _⟩
        · have := hb2 mid hold
          dsimp only
          omega
        · dsimp only
          omega
      · intro a ha b hb mid hma hmb
        obtain ⟨x, hx, rfl⟩ := (by
          unfold updateWorkplace at ha
          exact List.mem_map.mp ha)
        obtain ⟨y, hy, rfl⟩ := (by
          unfold updateWorkplace at hb
          exact List.mem_map.mp hb)
        rcases mem_users_invite x wid mid st.next hma with hox | ⟨hmeq, hxid⟩
        · rcases mem_users_invite y wid mid st.next hmb with hoy | ⟨hmeq2, hyid⟩
          · rw [h3 x hx y hy mid hox hoy]
          · exfalso
            have := (h2 x hx).2 mid hox
            omega
        · rcases mem_users_invite y wid mid st.next hmb with hoy | ⟨hmeq2, hyid⟩
          · exfalso
            have := (h2 y hy).2 mid hoy
            omega
          · rw [eq_of_nodup_ids st.workplaces h1 x y hx hy (hxid.trans hyid.symm)]
      · intro w hw mid hm
        obtain ⟨x, hx, rfl⟩ := (by
          unfold updateWorkplace at hw
          exact List.mem_map.mp hw)
        rcases mem_users_invite x wid mid st.next hm with hold | ⟨rfl, _⟩
        · obtain ⟨m, hmm, hid⟩ := h4 x hx mid hold
          exact ⟨m, List.mem_append_left _ hmm, hid⟩
        · exact ⟨⟨st.next, uid, Role.MEMBER⟩,
            List.mem_append_right _ (List.mem_singleton.mpr rfl), rfl⟩

/-- One workplace list arises from another by rewriting each record while
preserving its identifier and membership collection. -/
def UsersEquiv (l l' : List Workplace) : Prop :=
  ∃ f : Workplace → Workplace,
    l' = l.map f ∧ ∀ w, (f w).id = w.id ∧ (f w).users = w.users

/-- The identity rewriting. -/
theorem usersEquiv_refl (l : List Workplace) : UsersEquiv l l :=
  ⟨id, (List.map_id l).symm, fun _ => ⟨rfl, rfl⟩⟩

/-- Composition of record rewritings. -/
theorem usersEquiv_trans {l l' l'' : List Workplace}
    (h1 : UsersEquiv l l') (h2 : UsersEquiv l' l'') : UsersEquiv l l'' := by
  obtain ⟨f, hf, hfp⟩ := h1
  obtain ⟨g, hg, hgp⟩ := h2
  refine ⟨g ∘ f, ?_, fun w => ?_⟩
  · rw [hg, hf, List.map_map]
  · exact ⟨(hgp (f w)).1.trans (hfp w).1, (hgp (f w)).2.trans (hfp w).2⟩

/-- A saved identifier-preserving, membership-preserving update is a record
rewriting. -/
theorem usersEquiv_updateWorkplace (l : List Workplace) (wid : Nat)
    (g : Workplace → Workplace)
    (hg : ∀ w, (g w).id = w.id ∧ (g w).users = w.users) :
    UsersEquiv l (updateWorkplace l wid g) := by
  refine ⟨fun w => if w.id == wid then g w else w, rfl, fun w => ?_⟩
  dsimp only
  by_cases hc : (w.id == wid) = true
  · rw [if_pos hc]
    exact hg w
  · rw [if_neg hc]
    exact ⟨rfl, rfl⟩

/-- An issue cascade step only rewrites workplace records, preserving their
identifiers and membership collections. -/
theorem workplacesEquiv_deleteIssueCascade (st : State) (iid : Nat) :
    UsersEquiv st.workplaces (deleteIssueCascade st iid).workplaces := by
  unfold deleteIssueCascade
  cases findIssue st iid with
  | none => exact usersEquiv_refl _
  | some i =>
      cases issueWorkplace st iid with
      | none => exact usersEquiv_refl _
      | some w =>
          exact usersEquiv_updateWorkplace st.workplaces w.id
            (fun w' => { w' with issues := w'.issues.erase iid })
            (fun w' => ⟨rfl, rfl⟩)

/-- A sprint cascade step only rewrites workplace records, preserving their
identifiers and membership collections. -/
theorem workplacesEquiv_deleteSprintCascade (st : State) (sid : Nat) :
    UsersEquiv st.workplaces (deleteSprintCascade st sid).workplaces := by
  unfold deleteSprintCascade
  cases findSprint st sid with
  | none => exact usersEquiv_refl _
  | some s =>
      dsimp only
      refine foldl_preserveP deleteIssueCascade
        (fun σ => UsersEquiv st.workplaces σ.workplaces)
        (fun σ x hp => usersEquiv_trans hp (workplacesEquiv_deleteIssueCascade σ x))
        s.issues _ ?_
      cases sprintWorkplace st sid with
      | none => exact usersEquiv_refl _
      | some w =>
          exact usersEquiv_updateWorkplace st.workplaces w.id
            (fun w' => { w' with sprints := w'.sprints.erase sid })
            (fun w' => ⟨rfl, rfl⟩)

/-- The sprint cascade fold only rewrites workplace records. -/
theorem workplacesEquiv_foldSprint (base : State) (l : List Nat) :
    UsersEquiv base.workplaces ((l.foldl deleteSprintCascade base).workplaces) :=
  foldl_preserveP deleteSprintCascade
    (fun σ => UsersEquiv base.workplaces σ.workplaces)
    (fun σ x hp => usersEquiv_trans hp (workplacesEquiv_deleteSprintCascade σ x))
    l base (usersEquiv_refl _)

/-- The issue cascade fold only rewrites workplace records. -/
theorem workplacesEquiv_foldIssue (base : State) (l : List Nat) :
    UsersEquiv base.workplaces ((l.foldl deleteIssueCascade base).workplaces) :=
  foldl_preserveP deleteIssueCascade
    (fun σ => UsersEquiv base.workplaces σ.workplaces)
    (fun σ x hp => usersEquiv_trans hp (workplacesEquiv_deleteIssueCascade σ x))
    l base (usersEquiv_refl _)

/-- An issue cascade step does not touch the generation counter. -/
theorem next_deleteIssueCascade (st : State) (iid : Nat) :
    (deleteIssueCascade st iid).next = st.next := by
  unfold deleteIssueCascade
  cases findIssue st iid
  · rfl
  · cases issueWorkplace st iid <;> rfl

/-- A sprint cascade step does not touch the generation counter. -/
theorem next_deleteSprintCascade (st : State) (sid : Nat) :
    (deleteSprintCascade st sid).next = st.next := by
  unfold deleteSprintCascade
  cases findSprint st sid with
  | none => rfl
  | some s =>
      dsimp only
      exact foldl_preserveP deleteIssueCascade (fun σ => σ.next = st.next)
        (fun σ x h => (next_deleteIssueCascade σ x).trans h)
        s.issues _ (by cases sprintWorkplace st sid <;> rfl)

/-- The sprint cascade fold does not touch the generation counter. -/
theorem next_foldSprint (base : State) (l : List Nat) :
    (l.foldl deleteSprintCascade base).next = base.next :=
  foldl_preserveP deleteSprintCascade (fun σ => σ.next = base.next)
    (fun σ x h => (next_deleteSprintCascade σ x).trans h) l base rfl

/-- The issue cascade fold does not touch the generation counter. -/
theorem next_foldIssue (base : State) (l : List Nat) :
    (l.foldl deleteIssueCascade base).next = base.next :=
  foldl_preserveP deleteIssueCascade (fun σ => σ.next = base.next)
    (fun σ x h => (next_deleteIssueCascade σ x).trans h) l base rfl

/-- Invariant preservation by workplace deletion: memberships of the deleted
workplace are bulk-removed, the cascade only rewrites or removes workplace
records, and surviving workplaces keep their membership documents. -/
theorem StoreInv_deleteWorkplace (st : State) (wid : Nat) (st2 : State)
    (hok : Workplace.deleteCascade st wid = Except.ok st2)
    (h : StoreInv st) : StoreInv st2 := by
  obtain ⟨h1, h2, h3, h4⟩ := h
  unfold Workplace.deleteCascade at hok
  dsimp only at hok
  cases hfw : findWorkplace { st with memberships := st.memberships.filter (fun m => !((membershipWorkplace st m.id).map Workplace.id == some wid)) } wid with
  | none => rw [hfw] at hok; cases hok
  | some w =>
      rw [hfw] at hok
      injection hok with hok
      subst hok
      obtain ⟨f, hfeq, hfp⟩ :
          UsersEquiv st.workplaces
            ((w.issues.foldl deleteIssueCascade
              (w.sprints.foldl deleteSprintCascade { st with memberships := st.memberships.filter (fun m => !((membershipWorkplace st m.id).map Workplace.id == some wid)) })).workplaces) :=
        usersEquiv_trans (workplacesEquiv_foldSprint { st with memberships := st.memberships.filter (fun m => !((membershipWorkplace st m.id).map Workplace.id == some wid)) } w.sprints)
          (workplacesEquiv_foldIssue (w.sprints.foldl deleteSprintCascade { st with memberships := st.memberships.filter (fun m => !((membershipWorkplace st m.id).map Workplace.id == some wid)) })
            w.issues)
      have hnext : (w.issues.foldl deleteIssueCascade
          (w.sprints.foldl deleteSprintCascade { st with memberships := st.memberships.filter (fun m => !((membershipWorkplace st m.id).map Workplace.id == some wid)) })).next = st.next :=
        (next_foldIssue _ _).trans (next_foldSprint { st with memberships := st.memberships.filter (fun m => !((membershipWorkplace st m.id).map Workplace.id == some wid)) } w.sprints)
      have hmem : (w.issues.foldl deleteIssueCascade
          (w.sprints.foldl deleteSprintCascade { st with memberships := st.memberships.filter (fun m => !((membershipWorkplace st m.id).map Workplace.id == some wid)) })).memberships =
            st.memberships.filter (fun m =>
              !((membershipWorkplace st m.id).map Workplace.id == some wid)) :=
        (memberships_foldIssue _ _).trans (memberships_foldSprint { st with memberships := st.memberships.filter (fun m => !((membershipWorkplace st m.id).map Workplace.id == some wid)) } w.sprints)
      have hids : ((w.issues.foldl deleteIssueCascade
          (w.sprints.foldl deleteSprintCascade { st with memberships := st.memberships.filter (fun m => !((membershipWorkplace st m.id).map Workplace.id == some wid)) })).workplaces).map Workplace.id =
            st.workplaces.map Workplace.id := by
        rw [hfeq, List.map_map,
          map_congrAll (Workplace.id ∘ f) Workplace.id st.workplaces
            (fun a => (hfp a).1)]
      refine ⟨?_, ?_, ?_, ?_⟩
      · show ((List.filter _ _).map Workplace.id).Nodup
        refine List.Nodup.sublist (List.Sublist.map Workplace.id
          (List.filter_sublist _)) ?_
        rw [hids]
        exact h1
      · intro w' hw'
        have hw'' := (List.mem_filter.mp hw').1
        rw [hfeq] at hw''
        obtain ⟨x, hx, rfl⟩ := List.mem_map.mp hw''
        obtain ⟨hb1, hb2⟩ := h2 x hx
        dsimp only
        rw [hnext, (hfp x).1, (hfp x).2]
        exact ⟨hb1, hb2⟩
      · intro a ha b hb mid hma hmb
        have ha' := (List.mem_filter.mp ha).1
        have hb' := (List.mem_filter.mp hb).1
        rw [hfeq] at ha' hb'
        obtain ⟨x, hx, rfl⟩ := List.mem_map.mp ha'
        obtain ⟨y, hy, rfl⟩ := List.mem_map.mp hb'
        rw [(hfp x).2] at hma
        rw [(hfp y).2] at hmb
        rw [h3 x hx y hy mid hma hmb]
      · intro w' hw' mid hm
        obtain ⟨hw'', hkeep⟩ := List.mem_filter.mp hw'
        rw [hfeq] at hw''
        obtain ⟨x, hx, rfl⟩ := List.mem_map.mp hw''
        rw [(hfp x).2] at hm
        obtain ⟨m, hmm, hid⟩ := h4 x hx mid hm
        dsimp only
        rw [hmem]
        refine ⟨m, List.mem_filter.mpr ⟨hmm, ?_⟩, hid⟩
        have hres : membershipWorkplace st m.id = some x := by
          rw [hid]
          exact find?_unique _ _ x hx (List.elem_iff.mpr hm)
            (fun b hb hpb => h3 b hb x hx mid (List.elem_iff.mp hpb) hm)
        rw [hres]
        have hxid : x.id ≠ wid := by
          rw [Bool.not_eq_eq_eq_not, Bool.not_true, beq_eq_false_iff_ne] at hkeep
          rw [(hfp x).1] at hkeep
          exact hkeep
        simp [hxid]

/-- Identifier and membership collection of a conditionally updated record. -/
theorem ifUpd_props (wid : Nat) (g : Workplace → Workplace)
    (hg : ∀ w, (g w).id = w.id ∧ (g w).users = w.users) (w : Workplace) :
    (if w.id == wid then g w else w).id = w.id ∧
    (if w.id == wid then g w else w).users = w.users := by
  by_cases hc : (w.id == wid) = true
  · rw [if_pos hc]
    exact hg w
  · rw [if_neg hc]
    exact ⟨rfl, rfl⟩

/-- Every request preserves the store invariant. -/
theorem StoreInv_applyOp (op : Op) (st : State) (h : StoreInv st) :
    StoreInv (applyOp op st) := by
  cases op with
  | createWorkplace c uid => exact StoreInv_create_workplace st c uid h
  | editWorkplace wid c =>
      unfold applyOp
      dsimp only
      cases he : edit_workplace st wid c with
      | error e => exact h
      | ok st2 =>
          unfold edit_workplace at he
          cases hfw : findWorkplace st wid with
          | none => rw [hfw] at he; cases he
          | some w =>
              rw [hfw] at he
              injection he with he
              subst he
              exact StoreInv_shape st
                (fun x => if x.id == wid then { x with name := c.name } else x)
                (ifUpd_props wid (fun x => { x with name := c.name })
                  (fun _ => ⟨rfl, rfl⟩))
                st.memberships (fun m hm => hm) st.sprints st.issues st.next
                le_rfl h
  | invite wid uid =>
      unfold applyOp
      dsimp only
      cases hi : add_to_workplace st wid uid with
      | error e => exact h
      | ok st2 => exact StoreInv_invite st wid uid st2 hi h
  | deleteWorkplace wid =>
      unfold applyOp
      dsimp only
      cases hd : Workplace.deleteCascade st wid with
      | error e => exact h
      | ok st2 => exact StoreInv_deleteWorkplace st wid st2 hd h
  | createSprint wid c =>
      unfold applyOp
      dsimp only
      cases hc : Sprint.createOne st wid c with
      | error e => exact h
      | ok st2 =>
          unfold Sprint.createOne at hc
          cases hfw : findWorkplace st wid with
          | none => rw [hfw] at hc; cases hc
          | some w =>
              rw [hfw] at hc
              cases hv : Sprint.validate_creation st c wid none with
              | error e => rw [hv] at hc; cases hc
              | ok u =>
                  rw [hv] at hc
                  injection hc with hc
                  subst hc
                  exact StoreInv_shape st
                    (fun x => if x.id == wid then
                      { x with sprints := x.sprints ++ [st.next] } else x)
                    (ifUpd_props wid
                      (fun x => { x with sprints := x.sprints ++ [st.next] })
                      (fun _ => ⟨rfl, rfl⟩))
                    st.memberships (fun m hm => hm) _ st.issues (st.next + 1)
                    (by omega) h
  | deleteSprint sid =>
      unfold applyOp
      dsimp only
      cases hd : Sprint.deleteOne st sid with
      | error e => exact h
      | ok st2 =>
          unfold Sprint.deleteOne at hd
          cases hfs : findSprint st sid with
          | none => rw [hfs] at hd; cases hd
          | some s =>
              rw [hfs] at hd
              cases hsw : sprintWorkplace st sid with
              | none => rw [hsw] at hd; cases hd
              | some w =>
                  rw [hsw] at hd
                  injection hd with hd
                  subst hd
                  exact StoreInv_shape st
                    (fun x => if x.id == w.id then
                      { x with sprints := x.sprints.erase sid } else x)
                    (ifUpd_props w.id
                      (fun x => { x with sprints := x.sprints.erase sid })
                      (fun _ => ⟨rfl, rfl⟩))
                    st.memberships (fun m hm => hm) _ st.issues st.next
                    le_rfl h
  | createIssue wid author date =>
      unfold applyOp
      dsimp only
      cases hc : Issue.createOne st wid author date with
      | error e => exact h
      | ok st2 =>
          unfold Issue.createOne at hc
          cases hfw : findWorkplace st wid with
          | none => rw [hfw] at hc; cases hc
          | some w =>
              rw [hfw] at hc
              injection hc with hc
              subst hc
              exact StoreInv_shape st
                (fun x => if x.id == wid then
                  { x with issues := x.issues ++ [st.next] } else x)
                (ifUpd_props wid
                  (fun x => { x with issues := x.issues ++ [st.next] })
                  (fun _ => ⟨rfl, rfl⟩))
                st.memberships (fun m hm => hm) st.sprints _ (st.next + 1)
                (by omega) h
  | deleteIssue iid =>
      unfold applyOp
      dsimp only
      cases hd : Issue.deleteOne st iid with
      | error e => exact h
      | ok st2 =>
          unfold Issue.deleteOne at hd
          cases hfi : findIssue st iid with
          | none => rw [hfi] at hd; cases hd
          | some i =>
              rw [hfi] at hd
              cases hiw : issueWorkplace st iid with
              | none => rw [hiw] at hd; cases hd
              | some w =>
                  rw [hiw] at hd
                  injection hd with hd
                  subst hd
                  unfold deleteIssueCascade
                  rw [hfi]
                  dsimp only
                  rw [hiw]
                  dsimp only
                  exact StoreInv_shape st
                    (fun x => if x.id == w.id then
                      { x with issues := x.issues.erase iid } else x)
                    (ifUpd_props w.id
                      (fun x => { x with issues := x.issues.erase iid })
                      (fun _ => ⟨rfl, rfl⟩))
                    st.memberships (fun m hm => hm) st.sprints _ st.next
                    le_rfl h

/-- Every reachable store satisfies the invariant. -/
theorem StoreInv_reachable (st : State) (h : Reachable st) : StoreInv st := by
  induction h with
  | init =>
      refine ⟨?_, ?_, ?_, ?_⟩ <;> simp [initialState]
  | step op hr ih => exact StoreInv_applyOp op _ ih

/-- C5: in every reachable store, for every workplace and every membership
identifier in its membership collection, the membership document exists and
its workplace back-reference resolves to that workplace — in particular
immediately after workplace creation, and after any later operation that
keeps the membership listed. -/
theorem c5_membership_backref_consistency (st : State) (h : Reachable st) :
    ∀ w ∈ st.workplaces, ∀ mid ∈ w.users,
      membershipWorkplace st mid = some w ∧
      ∃ m ∈ st.memberships, m.id = mid := by
  obtain ⟨h1, h2, h3, h4⟩ := StoreInv_reachable st h
  intro w hw mid hmid
  refine ⟨?_, h4 w hw mid hmid⟩
  exact find?_unique _ _ w hw (List.elem_iff.mpr hmid)
    (fun b hb hpb => h3 b hb w hw mid (List.elem_iff.mp hpb) hmid)

/-- C5 witness: in the store reached by creating one workplace, the sole
membership's back-reference resolves to that workplace. -/
theorem c5_membership_backref_consistency_witness :
    membershipWorkplace (applyOp (Op.createWorkplace ⟨"W"⟩ 7) initialState) 1 =
      some ⟨0, "W", statesDefault, [1], [], []⟩ ∧
    ∃ m ∈ (applyOp (Op.createWorkplace ⟨"W"⟩ 7) initialState).memberships,
      m.id = 1 :=
  c5_membership_backref_consistency _ (Reachable.step _ Reachable.init)
    ⟨0, "W", statesDefault, [1], [], []⟩ (by decide) 1 (by decide)
